import Mathlib

/-!
Verification of the SuperLever location pipeline.

This file gives a shallow embedding of the location-standardization,
merge/reconciliation, resumable-batch, geocoding and proximity-search code
(`src/location/merge_chatgpt_results.py`, `src/location/standardize_location.py`,
`src/location/geocode_locations.py`, `src/transform_data/location_utils.py`)
and proves properties of that embedding.

Modelling conventions:
* A Python `dict` (JSON object) is modelled as an association list
  `List (String × α)` in insertion order.  Assignment `d[k] = v` keeps the
  position of an existing key and appends a fresh key at the end, exactly as
  CPython does; `k in d` and `d[k]` are `dmem` / `dget`.
* Network collaborators (the LocationIQ / Nominatim geocoders, the geopy
  distance computation) are oracle parameters: deterministic functions
  standing for one run's responses.  The in-memory request cache of
  `LocationService` makes repeated lookups of the same string return the
  same answer within a run, which is what a pure oracle function expresses.
* Python truthiness on strings (`if standardized:` etc.) is emptiness of the
  string; address fields absent from a provider response are modelled as
  `""`, which the source conflates with present-but-empty at every access
  (`address.get('city')` guards, `get('city', '')` defaults).
* Machine reals (floats) are modelled as exact rationals; the proved
  ordering/stability properties only use the total order on the values.
-/

/-- Python dict membership `k in d` on an association list. -/
def dmem {α : Type} : List (String × α) → String → Bool
  | [], _ => false
  | p :: m, k => p.1 = k || dmem m k

/-- Python dict lookup `d[k]` / `d.get(k)` on an association list. -/
def dget {α : Type} : List (String × α) → String → Option α
  | [], _ => none
  | p :: m, k => if p.1 = k then some p.2 else dget m k

/-- Overwrite the value stored at an existing key, keeping its position. -/
def doverwrite {α : Type} : List (String × α) → String → α → List (String × α)
  | [], _, _ => []
  | p :: m, k, v => if p.1 = k then (k, v) :: doverwrite m k v else p :: doverwrite m k v

/-- Python dict assignment `d[k] = v`: overwrite in place when the key exists,
append at the end otherwise. -/
def dinsert {α : Type} (m : List (String × α)) (k : String) (v : α) : List (String × α) :=
  if dmem m k then doverwrite m k v else m ++ [(k, v)]

theorem dmem_iff_dget {α : Type} (m : List (String × α)) (k : String) :
    dmem m k = true ↔ ∃ v, dget m k = some v := by
  induction m with
  | nil => simp [dmem, dget]
  | cons p m ih =>
    by_cases h : p.1 = k <;> simp [dmem, dget, h, ih]

theorem dget_eq_none_of_not_dmem {α : Type} {m : List (String × α)} {k : String}
    (h : dmem m k = false) : dget m k = none := by
  cases hg : dget m k with
  | none => rfl
  | some v =>
    have : dmem m k = true := (dmem_iff_dget m k).mpr ⟨v, hg⟩
    rw [h] at this; cases this

theorem dmem_of_dget {α : Type} {m : List (String × α)} {k : String} {v : α}
    (h : dget m k = some v) : dmem m k = true :=
  (dmem_iff_dget m k).mpr ⟨v, h⟩

theorem dget_doverwrite_self {α : Type} (m : List (String × α)) (k : String) (v : α)
    (h : dmem m k = true) : dget (doverwrite m k v) k = some v := by
  induction m with
  | nil => simp [dmem] at h
  | cons p m ih =>
    by_cases hp : p.1 = k
    · simp [doverwrite, hp, dget]
    · simp [dmem, hp] at h
      simp [doverwrite, hp, dget, ih h]

theorem dget_doverwrite_ne {α : Type} (m : List (String × α)) (k k' : String) (v : α)
    (h : k' ≠ k) : dget (doverwrite m k v) k' = dget m k' := by
  induction m with
  | nil => simp [doverwrite]
  | cons p m ih =>
    simp only [doverwrite]
    by_cases hp : p.1 = k
    · rw [if_pos hp]
      have hk' : ¬ (k = k') := fun he => h he.symm
      rw [dget, if_neg hk', ih, dget, if_neg (by rw [hp]; exact hk')]
    · rw [if_neg hp]
      by_cases hp' : p.1 = k'
      · rw [dget, if_pos hp', dget, if_pos hp']
      · rw [dget, if_neg hp', ih, dget, if_neg hp']

theorem dget_append_single_ne {α : Type} (m : List (String × α)) (k k' : String) (v : α)
    (h : k' ≠ k) : dget (m ++ [(k, v)]) k' = dget m k' := by
  induction m with
  | nil =>
    simp only [List.nil_append, dget]
    rw [if_neg (fun he => h he.symm)]
  | cons p m ih =>
    by_cases hp : p.1 = k' <;> simp [dget, hp, ih]

theorem dget_dinsert_self {α : Type} (m : List (String × α)) (k : String) (v : α) :
    dget (dinsert m k v) k = some v := by
  unfold dinsert
  by_cases h : dmem m k
  · simp [h, dget_doverwrite_self m k v h]
  · simp at h
    rw [if_neg (by simp [h])]
    induction m with
    | nil => simp [dget]
    | cons p m ih =>
      simp [dmem] at h
      simp [dget, h.1, ih h.2]

theorem dget_dinsert_ne {α : Type} (m : List (String × α)) (k k' : String) (v : α)
    (h : k' ≠ k) : dget (dinsert m k v) k' = dget m k' := by
  unfold dinsert
  by_cases hm : dmem m k
  · simp [hm, dget_doverwrite_ne m k k' v h]
  · rw [if_neg hm]
    exact dget_append_single_ne m k k' v h

theorem dmem_doverwrite {α : Type} (m : List (String × α)) (k k' : String) (v : α) :
    dmem (doverwrite m k v) k' = dmem m k' := by
  induction m with
  | nil => simp [doverwrite]
  | cons p m ih =>
    simp only [doverwrite]
    by_cases hp : p.1 = k
    · rw [if_pos hp, dmem, dmem, ih, hp]
    · rw [if_neg hp, dmem, dmem, ih]

theorem dmem_append_single {α : Type} (m : List (String × α)) (k k' : String) (v : α) :
    dmem (m ++ [(k, v)]) k' = (decide (k = k') || dmem m k') := by
  induction m with
  | nil => simp [dmem]
  | cons p m ih =>
    simp only [List.cons_append, dmem, List.append_eq, ih, Bool.or_left_comm]

theorem dmem_dinsert {α : Type} (m : List (String × α)) (k k' : String) (v : α) :
    dmem (dinsert m k v) k' = (decide (k = k') || dmem m k') := by
  unfold dinsert
  by_cases hm : dmem m k
  · rw [if_pos hm, dmem_doverwrite]
    by_cases hk : k = k'
    · subst hk; simp [hm]
    · simp [hk]
  · rw [if_neg hm]
    exact dmem_append_single m k k' v

theorem dmem_dinsert_self {α : Type} (m : List (String × α)) (k : String) (v : α) :
    dmem (dinsert m k v) k = true := by
  simp [dmem_dinsert]

theorem dmem_dinsert_mono {α : Type} {m : List (String × α)} {k' : String}
    (k : String) (v : α) (h : dmem m k' = true) : dmem (dinsert m k v) k' = true := by
  simp [dmem_dinsert, h]

theorem length_doverwrite {α : Type} (m : List (String × α)) (k : String) (v : α) :
    (doverwrite m k v).length = m.length := by
  induction m with
  | nil => rfl
  | cons p m ih => by_cases hp : p.1 = k <;> simp [doverwrite, hp, ih]

theorem length_dinsert_le {α : Type} (m : List (String × α)) (k : String) (v : α) :
    (dinsert m k v).length ≤ m.length + 1 := by
  unfold dinsert
  by_cases hm : dmem m k <;> simp [hm, length_doverwrite]

theorem length_dinsert_fresh {α : Type} {m : List (String × α)} {k : String} (v : α)
    (h : dmem m k = false) : (dinsert m k v).length = m.length + 1 := by
  unfold dinsert
  rw [if_neg (by simp [h])]
  simp

theorem mem_dinsert {α : Type} {m : List (String × α)} {k : String} {v : α} {p : String × α}
    (h : p ∈ dinsert m k v) : p ∈ m ∨ p = (k, v) := by
  unfold dinsert at h
  by_cases hm : dmem m k
  · rw [if_pos hm] at h
    clear hm
    induction m with
    | nil => simp [doverwrite] at h
    | cons q m ih =>
      by_cases hq : q.1 = k
      · simp [doverwrite, hq] at h
        rcases h with h | h
        · right; simp [h]
        · rcases ih h with h' | h'
          · left; simp [h']
          · right; exact h'
      · simp [doverwrite, hq] at h
        rcases h with h | h
        · left; simp [h]
        · rcases ih h with h' | h'
          · left; simp [h']
          · right; exact h'
  · rw [if_neg hm] at h
    simp at h
    tauto

/-! ## Merge/reconciliation step (`src/location/merge_chatgpt_results.py`, lines 72-118)

`LocationMerger.merge_chatgpt_results` builds `updated_main_data` by one pass
over `main_data`; `mergeStep` is the loop body for a single entry
`(original_location, value)` and `merge_chatgpt_results` is the whole loop
starting from the empty dict. -/

/-- One iteration of the merge loop of `LocationMerger.merge_chatgpt_results`
(lines 75-115 of the source). -/
def mergeStep (chatgpt : List (String × String)) (acc : List (String × String))
    (e : String × String) : List (String × String) :=
  if e.2 = "FAILED" then
    match dget chatgpt e.1 with
    | some r =>
      if r = "UNKNOWN" ∨ r = "MISSING_FROM_RESPONSE" ∨ r = "FAILED" then
        dinsert acc e.1 "FAILED"
      else if dmem acc r then
        dinsert acc e.1 "FAILED"
      else
        dinsert acc r "FAILED"
    | none => dinsert acc e.1 "FAILED"
  else
    dinsert acc e.1 e.2

/-- The in-memory merge of `LocationMerger.merge_chatgpt_results`: fold the
loop body over the entries of the primary store, starting from `{}`. -/
def merge_chatgpt_results (main chatgpt : List (String × String)) :
    List (String × String) :=
  main.foldl (mergeStep chatgpt) []

/-- A fallback result that the merge treats as usable (not one of the three
sentinel strings of line 81 of the source). -/
def usableResult (r : String) : Prop :=
  ¬(r = "UNKNOWN" ∨ r = "MISSING_FROM_RESPONSE" ∨ r = "FAILED")

instance (r : String) : Decidable (usableResult r) := by
  unfold usableResult; infer_instance

theorem mergeStep_shape (cg acc : List (String × String)) (e : String × String) :
    ∃ k v, mergeStep cg acc e = dinsert acc k v ∧
      (k = e.1 ∨ (e.2 = "FAILED" ∧ dget cg e.1 = some k ∧ usableResult k ∧
        dmem acc k = false)) := by
  unfold mergeStep
  by_cases hf : e.2 = "FAILED"
  · rw [if_pos hf]
    cases hcg : dget cg e.1 with
    | none => exact ⟨e.1, "FAILED", rfl, Or.inl rfl⟩
    | some r =>
      dsimp only
      by_cases hs : r = "UNKNOWN" ∨ r = "MISSING_FROM_RESPONSE" ∨ r = "FAILED"
      · rw [if_pos hs]; exact ⟨e.1, "FAILED", rfl, Or.inl rfl⟩
      · rw [if_neg hs]
        by_cases hm : dmem acc r
        · rw [if_pos hm]; exact ⟨e.1, "FAILED", rfl, Or.inl rfl⟩
        · rw [if_neg hm]
          exact ⟨r, "FAILED", rfl, Or.inr ⟨hf, rfl, hs, by simp at hm; exact hm⟩⟩
  · rw [if_neg hf]
    exact ⟨e.1, e.2, rfl, Or.inl rfl⟩

theorem foldl_mergeStep_preserve_dget (cg : List (String × String))
    (l : List (String × String)) :
    ∀ (acc : List (String × String)) (k : String) (v : String),
      dget acc k = some v → (∀ e ∈ l, e.1 ≠ k) →
      dget (l.foldl (mergeStep cg) acc) k = some v := by
  induction l with
  | nil => intro acc k v h _; exact h
  | cons e l ih =>
    intro acc k v h hl
    rw [List.foldl_cons]
    obtain ⟨k₀, v₀, heq, hcases⟩ := mergeStep_shape cg acc e
    have hkne : k ≠ k₀ := by
      rcases hcases with h₁ | h₁
      · rw [h₁]; exact fun he => hl e (List.mem_cons_self e l) he.symm
      · intro he
        rw [← he] at h₁
        rw [dmem_of_dget h] at h₁
        cases h₁.2.2.2
    rw [heq]
    refine ih _ k v ?_ (fun e' he' => hl e' (List.mem_cons_of_mem e he'))
    rw [dget_dinsert_ne acc k₀ k v₀ hkne]
    exact h

theorem foldl_mergeStep_preserve_dmem (cg : List (String × String))
    (l : List (String × String)) :
    ∀ (acc : List (String × String)) (k : String),
      dmem acc k = true → dmem (l.foldl (mergeStep cg) acc) k = true := by
  induction l with
  | nil => intro acc k h; exact h
  | cons e l ih =>
    intro acc k h
    rw [List.foldl_cons]
    obtain ⟨k₀, v₀, heq, _⟩ := mergeStep_shape cg acc e
    rw [heq]
    exact ih _ k (dmem_dinsert_mono k₀ v₀ h)

theorem foldl_mergeStep_length_le (cg : List (String × String))
    (l : List (String × String)) :
    ∀ (acc : List (String × String)),
      (l.foldl (mergeStep cg) acc).length ≤ acc.length + l.length := by
  induction l with
  | nil => intro acc; simp
  | cons e l ih =>
    intro acc
    rw [List.foldl_cons]
    obtain ⟨k₀, v₀, heq, _⟩ := mergeStep_shape cg acc e
    rw [heq]
    calc ((l.foldl (mergeStep cg) (dinsert acc k₀ v₀)).length)
        ≤ (dinsert acc k₀ v₀).length + l.length := ih _
      _ ≤ (acc.length + 1) + l.length := by
          have := length_dinsert_le acc k₀ v₀; omega
      _ = acc.length + (e :: l).length := by simp; omega

theorem foldl_mergeStep_length_eq (cg : List (String × String))
    (l : List (String × String)) :
    ∀ (acc : List (String × String)),
      (∀ e ∈ l, dmem acc e.1 = false) →
      (l.map Prod.fst).Nodup →
      (∀ k r, (k, "FAILED") ∈ l → dget cg k = some r → usableResult r →
        r ∉ l.map Prod.fst) →
      (l.foldl (mergeStep cg) acc).length = acc.length + l.length := by
  induction l with
  | nil => intro acc _ _ _; simp
  | cons e l ih =>
    intro acc hfresh hnd hfb
    rw [List.foldl_cons]
    obtain ⟨k₀, v₀, heq, hcases⟩ := mergeStep_shape cg acc e
    have hk₀fresh : dmem acc k₀ = false := by
      rcases hcases with h₁ | h₁
      · rw [h₁]; exact hfresh e (List.mem_cons_self e l)
      · exact h₁.2.2.2
    have hk₀notl : k₀ ∉ l.map Prod.fst := by
      rcases hcases with h₁ | h₁
      · rw [h₁]
        simp only [List.map_cons, List.nodup_cons] at hnd
        exact hnd.1
      · have he1 : (e.1, "FAILED") ∈ e :: l := by
          have : e = (e.1, e.2) := rfl
          rw [this, h₁.1] at *
          exact List.mem_cons_self _ _
        have := hfb e.1 k₀ he1 h₁.2.1 h₁.2.2.1
        simp only [List.map_cons] at this
        exact fun hc => this (List.mem_cons_of_mem _ hc)
    rw [heq]
    have hstep := length_dinsert_fresh (m := acc) (k := k₀) v₀ hk₀fresh
    have := ih (dinsert acc k₀ v₀)
      (fun e' he' => by
        rw [dmem_dinsert]
        have h1 : dmem acc e'.1 = false := hfresh e' (List.mem_cons_of_mem e he')
        have h2 : k₀ ≠ e'.1 := fun hc =>
          hk₀notl (by rw [hc]; exact List.mem_map_of_mem Prod.fst he')
        simp [h1, h2])
      (by simp only [List.map_cons, List.nodup_cons] at hnd; exact hnd.2)
      (fun k r hk hr hu => by
        have := hfb k r (List.mem_cons_of_mem e hk) hr hu
        simp only [List.map_cons] at this
        exact fun hc => this (List.mem_cons_of_mem _ hc))
    rw [this, hstep]
    simp; omega

theorem mergeStep_upgrade_dmem (cg acc : List (String × String)) (k C : String)
    (h : dget cg k = some C) (hu : usableResult C) :
    dmem (mergeStep cg acc (k, "FAILED")) C = true := by
  unfold mergeStep
  rw [if_pos rfl]
  dsimp only
  rw [h]
  dsimp only
  rw [if_neg hu]
  by_cases hm : dmem acc C
  · rw [if_pos hm]
    exact dmem_dinsert_mono k "FAILED" hm
  · rw [if_neg hm]
    exact dmem_dinsert_self acc C "FAILED"

theorem mergeStep_collision (cg acc : List (String × String)) (k C : String)
    (h : dget cg k = some C) (hu : usableResult C) (hm : dmem acc C = true) :
    mergeStep cg acc (k, "FAILED") = dinsert acc k "FAILED" := by
  unfold mergeStep
  rw [if_pos rfl]
  dsimp only
  rw [h]
  dsimp only
  rw [if_neg hu, if_pos hm]

theorem mergeStep_upgrade_eq (cg acc : List (String × String)) (k C : String)
    (h : dget cg k = some C) (hu : usableResult C) (hm : dmem acc C = false) :
    mergeStep cg acc (k, "FAILED") = dinsert acc C "FAILED" := by
  unfold mergeStep
  rw [if_pos rfl]
  dsimp only
  rw [h]
  dsimp only
  rw [if_neg hu, if_neg (by rw [hm]; simp)]

theorem mergeStep_keep (cg acc : List (String × String)) (k v : String)
    (hv : v ≠ "FAILED") : mergeStep cg acc (k, v) = dinsert acc k v := by
  unfold mergeStep
  rw [if_neg hv]

theorem nodup_tail_not_mem {β : Type} (l1 : List β) (k : β) (l2 : List β)
    (h : (l1 ++ k :: l2).Nodup) : k ∉ l2 := by
  have hs : (k :: l2).Sublist (l1 ++ k :: l2) := List.sublist_append_right l1 (k :: l2)
  have h2 : (k :: l2).Nodup := List.Nodup.sublist hs h
  exact (List.nodup_cons.mp h2).1

/-- Claim C1: merge preserves success.  Every primary entry whose value is not
`FAILED` reappears in the merged store with the same key and the same value,
for every fallback mapping. -/
theorem merge_preserves_success (main cg : List (String × String)) (k v : String)
    (hnd : (main.map Prod.fst).Nodup) (hmem : (k, v) ∈ main) (hv : v ≠ "FAILED") :
    dget (merge_chatgpt_results main cg) k = some v := by
  obtain ⟨l1, l2, rfl⟩ := List.append_of_mem hmem
  unfold merge_chatgpt_results
  rw [List.foldl_append, List.foldl_cons]
  rw [mergeStep_keep cg _ k v hv]
  have hknot : k ∉ l2.map Prod.fst := by
    have := hnd
    simp only [List.map_append, List.map_cons] at this
    exact nodup_tail_not_mem (l1.map Prod.fst) k (l2.map Prod.fst) this
  refine foldl_mergeStep_preserve_dget cg l2 _ k v (dget_dinsert_self _ k v) ?_
  intro e he hc
  exact hknot (hc ▸ List.mem_map_of_mem Prod.fst he)

/-- Witness for C1 at a concrete input. -/
theorem merge_preserves_success_witness :
    dget (merge_chatgpt_results [("a", "X")] []) "a" = some "X" :=
  merge_preserves_success [("a", "X")] [] "a" "X" (by decide) (by decide) (by decide)

/-- Counterexample to claim C2 as stated: the merged store can be strictly
smaller than the primary store.  Here the fallback upgrades the FAILED key
`K2` to the canonical string `K1`, which is itself a later primary key, so the
two entries collapse into one. -/
theorem merge_collision_safety_cex :
    merge_chatgpt_results [("K2", "FAILED"), ("K1", "V")] [("K2", "K1")] = [("K1", "V")] ∧
    ¬ ([("K2", "FAILED"), ("K1", "V")] : List (String × String)).length ≤
      (merge_chatgpt_results [("K2", "FAILED"), ("K1", "V")] [("K2", "K1")]).length := by
  decide

/-- Claim C2 (amended): if the fallback maps two distinct FAILED raw keys to
the same usable canonical string `C`, the merged store contains an entry under
the key `C` and keeps the later raw key with value `FAILED`.  The merged store
never has more entries than the primary store; when no usable fallback result
of a FAILED primary key is itself a key of the primary store, no entry is lost
(output size equals input size). -/
theorem merge_collision_safety (cg main l1 l2 l3 : List (String × String))
    (k1 k2 C : String)
    (hmain : main = l1 ++ (k1, "FAILED") :: l2 ++ (k2, "FAILED") :: l3)
    (hnd : (main.map Prod.fst).Nodup)
    (h1 : dget cg k1 = some C) (h2 : dget cg k2 = some C) (hu : usableResult C) :
    dmem (merge_chatgpt_results main cg) C = true ∧
    dget (merge_chatgpt_results main cg) k2 = some "FAILED" ∧
    (merge_chatgpt_results main cg).length ≤ main.length ∧
    ((∀ k r, (k, "FAILED") ∈ main → dget cg k = some r → usableResult r →
        r ∉ main.map Prod.fst) →
      (merge_chatgpt_results main cg).length = main.length) := by
  subst hmain
  refine ⟨?_, ?_, ?_, ?_⟩
  · unfold merge_chatgpt_results
    rw [List.foldl_append, List.foldl_cons, List.foldl_append, List.foldl_cons]
    apply foldl_mergeStep_preserve_dmem
    obtain ⟨k₀, v₀, heq, _⟩ := mergeStep_shape cg (List.foldl (mergeStep cg)
      (mergeStep cg (List.foldl (mergeStep cg) [] l1) (k1, "FAILED")) l2) (k2, "FAILED")
    rw [heq]
    apply dmem_dinsert_mono
    apply foldl_mergeStep_preserve_dmem
    exact mergeStep_upgrade_dmem cg _ k1 C h1 hu
  · unfold merge_chatgpt_results
    rw [List.foldl_append, List.foldl_cons, List.foldl_append, List.foldl_cons]
    have hmC : dmem (List.foldl (mergeStep cg)
        (mergeStep cg (List.foldl (mergeStep cg) [] l1) (k1, "FAILED")) l2) C = true := by
      apply foldl_mergeStep_preserve_dmem
      exact mergeStep_upgrade_dmem cg _ k1 C h1 hu
    rw [mergeStep_collision cg _ k2 C h2 hu hmC]
    have hknot : k2 ∉ l3.map Prod.fst := by
      have h' := hnd
      simp only [List.map_append, List.map_cons] at h'
      have h'' : ((l1.map Prod.fst ++ k1 :: l2.map Prod.fst) ++
          k2 :: l3.map Prod.fst).Nodup := by
        simpa [List.append_assoc] using h'
      exact nodup_tail_not_mem _ k2 (l3.map Prod.fst) h''
    refine foldl_mergeStep_preserve_dget cg l3 _ k2 "FAILED"
      (dget_dinsert_self _ k2 "FAILED") ?_
    intro e he hc
    exact hknot (hc ▸ List.mem_map_of_mem Prod.fst he)
  · have := foldl_mergeStep_length_le cg
      (l1 ++ (k1, "FAILED") :: l2 ++ (k2, "FAILED") :: l3) []
    unfold merge_chatgpt_results
    simpa using this
  · intro hfb
    have := foldl_mergeStep_length_eq cg
      (l1 ++ (k1, "FAILED") :: l2 ++ (k2, "FAILED") :: l3) []
      (fun e _ => rfl) hnd hfb
    unfold merge_chatgpt_results
    simpa using this

/-- Witness for (amended) C2 at a concrete input. -/
theorem merge_collision_safety_witness :
    dmem (merge_chatgpt_results [("a", "FAILED"), ("b", "FAILED")]
      [("a", "C"), ("b", "C")]) "C" = true ∧
    dget (merge_chatgpt_results [("a", "FAILED"), ("b", "FAILED")]
      [("a", "C"), ("b", "C")]) "b" = some "FAILED" ∧
    (merge_chatgpt_results [("a", "FAILED"), ("b", "FAILED")]
      [("a", "C"), ("b", "C")]).length ≤ 2 ∧
    (merge_chatgpt_results [("a", "FAILED"), ("b", "FAILED")]
      [("a", "C"), ("b", "C")]).length = 2 := by
  obtain ⟨c1, c2, c3, c4⟩ := merge_collision_safety [("a", "C"), ("b", "C")]
    [("a", "FAILED"), ("b", "FAILED")] [] [] [] "a" "b" "C" rfl
    (by decide) (by decide) (by decide) (by decide)
  refine ⟨c1, c2, c3, c4 ?_⟩
  intro k r hk hr _
  simp only [List.mem_cons, List.not_mem_nil, or_false, Prod.mk.injEq, and_true] at hk
  rcases hk with hk | hk <;> subst hk
  · have h' : dget [("a", "C"), ("b", "C")] "a" = some "C" := by decide
    have hrC := Option.some.inj (h'.symm.trans hr)
    subst hrC
    decide
  · have h' : dget [("a", "C"), ("b", "C")] "b" = some "C" := by decide
    have hrC := Option.some.inj (h'.symm.trans hr)
    subst hrC
    decide

/-- Counterexample to claim C3 as stated: an upgraded key `C` can end up with
a non-FAILED value in the merged store when `C` is itself a later primary key
with a successful value.  All hypotheses of the claim hold here (the primary
value at `K2` is FAILED, the fallback result `C` is usable, and `C` is not yet
a key of the output map being built when `K2` is processed), yet the merged
value at `C` is `V`, not `FAILED`. -/
theorem merge_key_upgrade_failed_cex :
    dget [("K2", "C")] "K2" = some "C" ∧ usableResult "C" ∧
    dmem (List.foldl (mergeStep [("K2", "C")]) [] []) "C" = false ∧
    merge_chatgpt_results [("K2", "FAILED"), ("C", "V")] [("K2", "C")] = [("C", "V")] ∧
    dget (merge_chatgpt_results [("K2", "FAILED"), ("C", "V")] [("K2", "C")]) "C" ≠
      some "FAILED" := by
  decide

/-- Claim C3 (amended): for a primary entry with value FAILED whose fallback
result is a usable canonical string `C` not yet a key of the output map being
built, and such that `C` is not itself a key of the primary store, the merged
store maps the new key `C` to `FAILED`. -/
theorem merge_key_upgrade_failed (cg main l1 l2 : List (String × String))
    (k C : String)
    (hmain : main = l1 ++ (k, "FAILED") :: l2)
    (hcg : dget cg k = some C) (hu : usableResult C)
    (hnotyet : dmem (l1.foldl (mergeStep cg) []) C = false)
    (hnotkey : C ∉ main.map Prod.fst) :
    dget (merge_chatgpt_results main cg) C = some "FAILED" := by
  subst hmain
  unfold merge_chatgpt_results
  rw [List.foldl_append, List.foldl_cons]
  rw [mergeStep_upgrade_eq cg _ k C hcg hu hnotyet]
  refine foldl_mergeStep_preserve_dget cg l2 _ C "FAILED"
    (dget_dinsert_self _ C "FAILED") ?_
  intro e he hc
  apply hnotkey
  simp only [List.map_append, List.map_cons]
  exact List.mem_append_right _ (List.mem_cons_of_mem _ (hc ▸ List.mem_map_of_mem Prod.fst he))

/-- Witness for (amended) C3 at a concrete input. -/
theorem merge_key_upgrade_failed_witness :
    dget (merge_chatgpt_results [("a", "FAILED")] [("a", "C")]) "C" = some "FAILED" :=
  merge_key_upgrade_failed [("a", "C")] [("a", "FAILED")] [] [] "a" "C" rfl
    (by decide) (by decide) (by decide) (by decide)

/-! ## Canonicalizer (`src/location/standardize_location.py`, lines 55-112)

`LocationStandardizer._extract_location_components` builds the canonical
"City, State/Province, Country" string from one LocationIQ result.  Address
fields are strings with `""` standing for an absent key: every access in the
source goes through truthiness (`address.get('city')`) or a `get(..., '')`
default, which conflate the two.  The postal-code regex `\b\d{5}(?:-\d{4})?\b`
is modelled over ASCII word characters. -/

/-- LocationIQ address component breakdown (the fields the source reads). -/
structure Address where
  city : String
  town : String
  village : String
  suburb : String
  state : String
  province : String
  county : String
  country : String

/-- One LocationIQ search result as used by the canonicalizer. -/
structure ProviderResult where
  display_name : String
  address : Address

/-- City selection of lines 63-72: city, town, village, suburb — first
non-empty wins. -/
def selectCity (a : Address) : String :=
  if a.city ≠ "" then a.city
  else if a.town ≠ "" then a.town
  else if a.village ≠ "" then a.village
  else if a.suburb ≠ "" then a.suburb
  else ""

/-- Region selection of lines 77-83: state, province, county. -/
def selectRegion (a : Address) : String :=
  if a.state ≠ "" then a.state
  else if a.province ≠ "" then a.province
  else if a.county ≠ "" then a.county
  else ""

/-- The `parts` list of lines 58-87. -/
def buildParts (a : Address) : List String :=
  (if selectCity a ≠ "" then [selectCity a] else []) ++
  (if selectRegion a ≠ "" then [selectRegion a] else []) ++
  (if a.country ≠ "" then [a.country] else [])

/-- The duplicate-removal loop of lines 91-95 (`cleaned_parts`), keeping the
first occurrence of each part in order. -/
def dedupAux (cleaned : List String) : List String → List String
  | [] => cleaned
  | p :: rest =>
    if p ∈ cleaned then dedupAux cleaned rest else dedupAux (cleaned ++ [p]) rest

def dedupFirst (l : List String) : List String := dedupAux [] l

/-- ASCII word character for the regex word boundary `\b`. -/
def isWordChar (c : Char) : Bool := c.isAlpha || c.isDigit || c = '_'

/-- Word boundary after a match: end of input or a non-word character. -/
def postalBoundary : List Char → Bool
  | [] => true
  | c :: _ => !(isWordChar c)

/-- Match of `\d{5}(?:-\d{4})?\b` at the current position (the boundary before
the match is checked by the caller); returns the number of characters matched.
The optional `-\d{4}` group is tried greedily first, exactly as the regex
engine does; when it fails, the bare five digits still match because the
following hyphen is itself a word boundary. -/
def matchPostal (cs : List Char) : Option Nat :=
  if (cs.take 5).length = 5 ∧ (cs.take 5).all (fun c => c.isDigit) then
    match cs.drop 5 with
    | '-' :: rest2 =>
      if (rest2.take 4).length = 4 ∧ (rest2.take 4).all (fun c => c.isDigit) ∧
          postalBoundary (rest2.drop 4) then
        some 10
      else
        some 5
    | rest => if postalBoundary rest then some 5 else none
  else none

theorem matchPostal_pos {cs : List Char} {n : Nat} (h : matchPostal cs = some n) :
    0 < n := by
  unfold matchPostal at h
  split at h
  · split at h
    · split at h
      · cases h; omega
      · cases h; omega
    · split at h
      · cases h; omega
      · cases h
  · cases h

/-- `re.sub(r'\b\d{5}(?:-\d{4})?\b', '', display_name)` (line 106): scan left
to right, removing postal-code matches; `prevWord` records whether the
character before the current position is a word character (for `\b`). -/
def stripPostalAux (prevWord : Bool) (cs : List Char) : List Char :=
  match cs with
  | [] => []
  | c :: rest =>
    if prevWord then c :: stripPostalAux (isWordChar c) rest
    else
      match h : matchPostal (c :: rest) with
      | some n => stripPostalAux true ((c :: rest).drop n)
      | none => c :: stripPostalAux (isWordChar c) rest
termination_by cs.length
decreasing_by
  · simp
  · have hp : 0 < n := matchPostal_pos (by assumption)
    simp [List.length_drop]
    omega
  · simp

/-- `re.sub(r',\s*,', ',', display_name)` (line 108): a comma, optional
whitespace, and a second comma collapse to a single comma; scanning resumes
after the replaced region. -/
def collapseCommasAux (cs : List Char) : List Char :=
  match cs with
  | [] => []
  | c :: rest =>
    if c = ',' then
      match h : rest.dropWhile (fun ch => ch.isWhitespace) with
      | ',' :: rest2 => ',' :: collapseCommasAux rest2
      | _ => ',' :: collapseCommasAux rest
    else c :: collapseCommasAux rest
termination_by cs.length
decreasing_by
  · rename_i t hc
    have hd : (List.dropWhile (fun ch => ch.isWhitespace) t).length ≤ t.length :=
      (List.dropWhile_sublist _).length_le
    rw [h] at hd
    simp at hd ⊢
    omega
  · simp
  · simp

/-- `display_name.strip(' ,')` (line 109). -/
def stripEndChars (s : List Char) : List Char :=
  ((s.dropWhile (fun c => c = ' ' || c = ',')).reverse.dropWhile
    (fun c => c = ' ' || c = ',')).reverse

/-- The display-name fallback cleanup of lines 100-110. -/
def cleanDisplayName (s : String) : String :=
  String.mk (stripEndChars (collapseCommasAux (stripPostalAux false s.toList)))

/-- `LocationStandardizer._extract_location_components` (lines 55-112):
components path when at least two parts were assembled, display-name fallback
otherwise, `none` when neither yields anything. -/
def extract_location_components (r : ProviderResult) : Option String :=
  let parts := buildParts r.address
  if 2 ≤ parts.length then some (String.intercalate ", " (dedupFirst parts))
  else if r.display_name ≠ "" then some (cleanDisplayName r.display_name)
  else none

theorem dedupAux_head (l : List String) :
    ∀ (y : String) (ys : List String), (dedupAux (y :: ys) l).head? = some y := by
  induction l with
  | nil => intro y ys; rfl
  | cons p rest ih =>
    intro y ys
    unfold dedupAux
    split
    · exact ih y ys
    · exact ih y (ys ++ [p])

/-- Claim C6: canonicalization city priority.  When the address breakdown has
both a non-empty `city` and a non-empty `town`, the selected city component is
the `city` value (never `town`): it heads the component list and the dedup
pass keeps it first, and on the components path the canonical string is the
comma-join of that deduplicated list. -/
theorem canonical_city_priority (r : ProviderResult)
    (h1 : r.address.city ≠ "") (h2 : r.address.town ≠ "") :
    selectCity r.address = r.address.city ∧
    (r.address.city ≠ r.address.town → selectCity r.address ≠ r.address.town) ∧
    (dedupFirst (buildParts r.address)).head? = some r.address.city ∧
    (2 ≤ (buildParts r.address).length →
      extract_location_components r =
        some (String.intercalate ", " (dedupFirst (buildParts r.address)))) := by
  have hsel : selectCity r.address = r.address.city := by
    unfold selectCity
    rw [if_pos h1]
  refine ⟨hsel, ?_, ?_, ?_⟩
  · intro hne
    rw [hsel]
    exact hne
  · have hparts : buildParts r.address =
        r.address.city ::
          ((if selectRegion r.address ≠ "" then [selectRegion r.address] else []) ++
            (if r.address.country ≠ "" then [r.address.country] else [])) := by
      unfold buildParts
      rw [hsel, if_pos h1]
      simp
    rw [hparts]
    unfold dedupFirst dedupAux
    rw [if_neg (List.not_mem_nil _)]
    exact dedupAux_head _ r.address.city []
  · intro hlen
    unfold extract_location_components
    rw [if_pos hlen]

/-- Witness for C6 at a concrete address with both city and town present. -/
theorem canonical_city_priority_witness :
    selectCity (Address.mk "Springfield" "Shelbyville" "" "" "Illinois" "" "" "United States")
      = "Springfield" ∧
    (dedupFirst (buildParts (Address.mk "Springfield" "Shelbyville" "" "" "Illinois" "" ""
      "United States"))).head? = some "Springfield" ∧
    extract_location_components (ProviderResult.mk "ignored"
      (Address.mk "Springfield" "Shelbyville" "" "" "Illinois" "" "" "United States")) =
      some "Springfield, Illinois, United States" := by
  have h := canonical_city_priority (ProviderResult.mk "ignored"
    (Address.mk "Springfield" "Shelbyville" "" "" "Illinois" "" "" "United States"))
    (by decide) (by decide)
  exact ⟨h.1, h.2.2.1, (h.2.2.2 (by decide)).trans (by decide)⟩

/-! ## Resumable batch runner
(`src/location/standardize_location.py`, lines 139-197, and
`src/location/geocode_locations.py`, lines 82-174)

Both scripts load the persisted store, drop the items already present as
keys, optionally truncate to a user-given limit, and fold the per-item step
over the rest, starting from the loaded store.  The store written to disk
after processing item `k` is exactly the in-memory store at that point
(full-file rewrite per item), so the flushed states are the prefix folds. -/

/-- Resume filter: `[loc for loc in locations if loc not in existing_data]`. -/
def remainingOf {α : Type} (existing : List (String × α)) (items : List String) :
    List String :=
  items.filter (fun l => !dmem existing l)

/-- `if max_locations and max_locations < len(locations): locations[:max_locations]`
(Python truthiness makes a zero limit a no-op). -/
def limitItems (maxL : Option Nat) (items : List String) : List String :=
  match maxL with
  | some m => if m ≠ 0 ∧ m < items.length then items.take m else items
  | none => items

/-- The value recorded for one location (lines 176-185 of
`standardize_location.py`): the standardizer result when truthy, the `FAILED`
sentinel otherwise.  `api` is the oracle for `standardize_location`. -/
def stepValue (api : String → Option String) (loc : String) : String :=
  match api loc with
  | some s => if s = "" then "FAILED" else s
  | none => "FAILED"

/-- One loop iteration of `process_locations_file`: record the result under
the raw location key. -/
def batchStep (api : String → Option String) (out : List (String × String))
    (loc : String) : List (String × String) :=
  dinsert out loc (stepValue api loc)

/-- Starting from an empty store (no existing output file), the store flushed
to disk immediately after processing item `k` of `locations`. -/
def flushedStore (api : String → Option String) (locations : List String) (k : Nat) :
    List (String × String) :=
  (locations.take k).foldl (batchStep api) []

/-- `LocationStandardizer.process_locations_file` (lines 139-197): resume from
the existing store, early-return when nothing remains, else fold the step over
the (possibly limited) remaining items. -/
def process_locations_file (api : String → Option String)
    (existing : List (String × String)) (locations : List String)
    (maxL : Option Nat) : List (String × String) :=
  if (remainingOf existing locations).length = 0 then existing
  else (limitItems maxL (remainingOf existing locations)).foldl (batchStep api) existing

/-- One LocationIQ geocoding response as read by `LocationGeocoder.geocode_location`. -/
structure GeoRaw where
  lat : ℚ
  lng : ℚ
  display_name : String
  importance : ℚ
deriving DecidableEq

/-- One record of the geocoded store (`location_data`, lines 146-153 of
`geocode_locations.py`). -/
structure GeoData where
  lat : ℚ
  lng : ℚ
  display_name : String
  importance : ℚ
  original_locations : List String
  original_count : Nat
deriving DecidableEq

/-- `d.setdefault(key, []).append(v)` pattern of lines 89-91 of
`geocode_locations.py` (and 149-154 of `location_utils.py`): append to the
list at the first occurrence of the key, create the group at the end
otherwise. -/
def groupAppend {α : Type} : List (String × List α) → String → α → List (String × List α)
  | [], key, v => [(key, [v])]
  | p :: gs, key, v =>
    if p.1 = key then (p.1, p.2 ++ [v]) :: gs else p :: groupAppend gs key v

/-- `successful_standardized` of lines 83-92 of `geocode_locations.py`:
group the raw locations of the standardized store by their non-FAILED
canonical value, in first-appearance order. -/
def successfulStandardized (standardizedData : List (String × String)) :
    List (String × List String) :=
  standardizedData.foldl
    (fun acc e => if e.2 ≠ "FAILED" then groupAppend acc e.2 e.1 else acc) []

/-- One loop iteration of `process_standardized_locations` (lines 133-167):
on a geocoder result, record the coordinate data together with the
contributing raw variants; on failure, record nothing. -/
def geoStep (api : String → Option GeoRaw) (successful : List (String × List String))
    (out : List (String × GeoData)) (loc : String) : List (String × GeoData) :=
  match api loc with
  | some g =>
    dinsert out loc
      { lat := g.lat, lng := g.lng, display_name := g.display_name,
        importance := g.importance,
        original_locations := (dget successful loc).getD [],
        original_count := ((dget successful loc).getD []).length }
  | none => out

/-- `LocationGeocoder.process_standardized_locations` (lines 65-174): group by
canonical value, resume from the existing geocoded store, early-return when
nothing remains, else fold the geocoding step over the remaining unique
canonical strings. -/
def process_standardized_locations (api : String → Option GeoRaw)
    (standardizedData : List (String × String)) (existing : List (String × GeoData))
    (maxL : Option Nat) : List (String × GeoData) :=
  if (remainingOf existing
      ((successfulStandardized standardizedData).map Prod.fst)).length = 0 then
    existing
  else
    (limitItems maxL (remainingOf existing
        ((successfulStandardized standardizedData).map Prod.fst))).foldl
      (geoStep api (successfulStandardized standardizedData)) existing

theorem stepValue_spec (api : String → Option String) (loc : String) :
    stepValue api loc = "FAILED" ∨ api loc = some (stepValue api loc) := by
  unfold stepValue
  cases h : api loc with
  | none => exact Or.inl rfl
  | some s =>
    dsimp only
    by_cases hs : s = ""
    · rw [if_pos hs]; exact Or.inl rfl
    · rw [if_neg hs]; exact Or.inr rfl

theorem remainingOf_eq_nil {α : Type} {existing : List (String × α)}
    {items : List String} (h : ∀ l ∈ items, dmem existing l = true) :
    remainingOf existing items = [] := by
  induction items with
  | nil => rfl
  | cons x t ih =>
    unfold remainingOf
    rw [List.filter_cons]
    rw [h x (List.mem_cons_self x t)]
    simp only [Bool.not_true, Bool.false_eq_true, if_false]
    exact ih (fun l hl => h l (List.mem_cons_of_mem x hl))

theorem mem_remainingOf {α : Type} {existing : List (String × α)}
    {items : List String} {x : String} (hx : x ∈ items)
    (hdm : dmem existing x = false) : x ∈ remainingOf existing items := by
  unfold remainingOf
  exact List.mem_filter.mpr ⟨hx, by rw [hdm]; rfl⟩

theorem foldl_batchStep_dmem (api : String → Option String) (l : List String) :
    ∀ (acc : List (String × String)) (x : String),
      (dmem acc x = true ∨ x ∈ l) → dmem (l.foldl (batchStep api) acc) x = true := by
  induction l with
  | nil =>
    intro acc x h
    rcases h with h | h
    · exact h
    · cases h
  | cons y t ih =>
    intro acc x h
    rw [List.foldl_cons]
    apply ih
    rcases h with h | h
    · exact Or.inl (dmem_dinsert_mono y (stepValue api y) h)
    · rcases List.mem_cons.mp h with h' | h'
      · subst h'
        exact Or.inl (dmem_dinsert_self acc x (stepValue api x))
      · exact Or.inr h'

theorem foldl_batchStep_append (api : String → Option String) (l : List String) :
    ∀ (acc : List (String × String)),
      (∀ x ∈ l, dmem acc x = false) → l.Nodup →
      l.foldl (batchStep api) acc = acc ++ l.map (fun loc => (loc, stepValue api loc)) := by
  induction l with
  | nil => intro acc _ _; simp
  | cons x t ih =>
    intro acc hfresh hnd
    rw [List.foldl_cons]
    have hx : dmem acc x = false := hfresh x (List.mem_cons_self x t)
    have hstep : batchStep api acc x = acc ++ [(x, stepValue api x)] := by
      unfold batchStep dinsert
      rw [if_neg (by rw [hx]; exact Bool.false_ne_true)]
    rw [hstep]
    rw [ih (acc ++ [(x, stepValue api x)])
      (fun y hy => by
        rw [dmem_append_single]
        have h1 : dmem acc y = false := hfresh y (List.mem_cons_of_mem x hy)
        have h2 : x ≠ y := fun hc => (List.nodup_cons.mp hnd).1 (hc ▸ hy)
        simp [h1, h2])
      (List.nodup_cons.mp hnd).2]
    simp

/-- Counterexample to claim C5 as stated: with a duplicated input item the
store flushed after item 2 of 2 has only one entry, because the second
occurrence overwrites the first key instead of adding an entry. -/
theorem batch_crash_safety_cex :
    2 ≤ (["a", "a"] : List String).length ∧
    (flushedStore (fun _ => none) ["a", "a"] 2).length ≠ 2 := by
  decide

/-- Claim C5 (amended: the input items are distinct, as the deduplicated
location extract guarantees).  Starting from an empty store, the store
flushed immediately after processing item `k` is exactly the first `k` items
each mapped to its terminal value: it has exactly `k` entries and every value
is either the `FAILED` sentinel or precisely the canonical string the
standardizer returned. -/
theorem batch_crash_safety (api : String → Option String) (locations : List String)
    (k : Nat) (hnd : locations.Nodup) (hk : k ≤ locations.length) :
    flushedStore api locations k =
      (locations.take k).map (fun loc => (loc, stepValue api loc)) ∧
    (flushedStore api locations k).length = k ∧
    ∀ p ∈ flushedStore api locations k, p.2 = "FAILED" ∨ api p.1 = some p.2 := by
  have hnd' : (locations.take k).Nodup :=
    List.Nodup.sublist (List.take_sublist k locations) hnd
  have heq : flushedStore api locations k =
      (locations.take k).map (fun loc => (loc, stepValue api loc)) := by
    unfold flushedStore
    rw [foldl_batchStep_append api (locations.take k) [] (fun x _ => rfl) hnd']
    simp
  refine ⟨heq, ?_, ?_⟩
  · rw [heq]
    simp [List.length_take]
    omega
  · intro p hp
    rw [heq] at hp
    obtain ⟨loc, _, hpl⟩ := List.mem_map.mp hp
    rw [← hpl]
    exact stepValue_spec api loc

/-- Witness for (amended) C5 at a concrete input. -/
theorem batch_crash_safety_witness :
    flushedStore (fun l => if l = "a" then some "A" else none) ["a", "b", "c"] 2 =
      [("a", "A"), ("b", "FAILED")] ∧
    (flushedStore (fun l => if l = "a" then some "A" else none) ["a", "b", "c"] 2).length
      = 2 ∧
    ∀ p ∈ flushedStore (fun l => if l = "a" then some "A" else none) ["a", "b", "c"] 2,
      p.2 = "FAILED" ∨ (fun l => if l = "a" then some "A" else none) p.1 = some p.2 := by
  obtain ⟨c1, c2, c3⟩ := batch_crash_safety
    (fun l => if l = "a" then some "A" else none) ["a", "b", "c"] 2
    (by decide) (by decide)
  exact ⟨c1.trans (by decide), c2, c3⟩

/-- Claim C4: idempotence of the resumable batch runner, for both the
standardizer and the geocoder drivers.  When the persisted store already
contains every input item as a key, the resume filter removes everything and
the run early-returns the store unchanged; moreover a completed standardizer
run (no limit) leaves every input location present, so a second run over its
output processes zero items and returns the identical store. -/
theorem resumable_runner_idempotent
    (api api' : String → Option String) (store store' : List (String × String))
    (locations locs' : List String) (m m' : Option Nat)
    (gapi : String → Option GeoRaw) (sd : List (String × String))
    (gstore : List (String × GeoData)) (m2 : Option Nat)
    (h1 : ∀ l ∈ locations, dmem store l = true)
    (h2 : ∀ l ∈ (successfulStandardized sd).map Prod.fst, dmem gstore l = true) :
    remainingOf store locations = [] ∧
    process_locations_file api store locations m = store ∧
    remainingOf gstore ((successfulStandardized sd).map Prod.fst) = [] ∧
    process_standardized_locations gapi sd gstore m2 = gstore ∧
    remainingOf (process_locations_file api' store' locs' none) locs' = [] ∧
    process_locations_file api' (process_locations_file api' store' locs' none) locs' m' =
      process_locations_file api' store' locs' none := by
  have hr1 : remainingOf store locations = [] := remainingOf_eq_nil h1
  have hr2 : remainingOf gstore ((successfulStandardized sd).map Prod.fst) = [] :=
    remainingOf_eq_nil h2
  have hp1 : process_locations_file api store locations m = store := by
    unfold process_locations_file
    rw [hr1]
    rfl
  have hp2 : process_standardized_locations gapi sd gstore m2 = gstore := by
    unfold process_standardized_locations
    rw [hr2]
    rfl
  have hF : ∀ x ∈ locs',
      dmem (process_locations_file api' store' locs' none) x = true := by
    intro x hx
    unfold process_locations_file
    by_cases hrem : (remainingOf store' locs').length = 0
    · rw [if_pos hrem]
      have hnil : remainingOf store' locs' = [] := List.length_eq_zero.mp hrem
      cases hdm : dmem store' x with
      | true => rfl
      | false =>
        exact absurd (hnil ▸ mem_remainingOf hx hdm) (List.not_mem_nil x)
    · rw [if_neg hrem]
      show dmem ((remainingOf store' locs').foldl (batchStep api') store') x = true
      apply foldl_batchStep_dmem
      cases hdm : dmem store' x with
      | true => exact Or.inl rfl
      | false => exact Or.inr (mem_remainingOf hx hdm)
  have hr3 : remainingOf (process_locations_file api' store' locs' none) locs' = [] :=
    remainingOf_eq_nil hF
  have hgen : ∀ (G : List (String × String)), remainingOf G locs' = [] →
      process_locations_file api' G locs' m' = G := by
    intro G hG
    unfold process_locations_file
    rw [hG]
    rfl
  have hp3 : process_locations_file api'
      (process_locations_file api' store' locs' none) locs' m' =
      process_locations_file api' store' locs' none := hgen _ hr3
  exact ⟨hr1, hp1, hr2, hp2, hr3, hp3⟩

/-- Witness for C4 at concrete inputs. -/
theorem resumable_runner_idempotent_witness :
    remainingOf [("a", "X")] ["a"] = [] ∧
    process_locations_file (fun _ => none) [("a", "X")] ["a"] none = [("a", "X")] ∧
    remainingOf [("C", GeoData.mk 1 2 "d" 0 ["x"] 1)]
      ((successfulStandardized [("x", "C")]).map Prod.fst) = [] ∧
    process_standardized_locations (fun _ => none) [("x", "C")]
      [("C", GeoData.mk 1 2 "d" 0 ["x"] 1)] none = [("C", GeoData.mk 1 2 "d" 0 ["x"] 1)] ∧
    remainingOf (process_locations_file (fun _ => none) [] ["b"] none) ["b"] = [] ∧
    process_locations_file (fun _ => none)
      (process_locations_file (fun _ => none) [] ["b"] none) ["b"] none =
      process_locations_file (fun _ => none) [] ["b"] none :=
  resumable_runner_idempotent (fun _ => none) (fun _ => none) [("a", "X")] []
    ["a"] ["b"] none none (fun _ => none) [("x", "C")]
    [("C", GeoData.mk 1 2 "d" 0 ["x"] 1)] none (by decide) (by decide)

/-! ## Proximity search and city grouping (`src/transform_data/location_utils.py`)

`LocationService.geocode_location` (lines 24-68) turns one Nominatim response
into a result dict with keys `lat`, `lon`, `formatted_address`, `city`,
`state`, `country` — the last three defaulted to `''` when the provider
address lacks them, so the keys are always present.  `prov` is the oracle for
one run's Nominatim responses (the in-memory cache makes repeated lookups
consistent, which a pure function expresses); a `none` response also covers
the exception path.  `dist` is the oracle for `geopy.distance.geodesic(...)
.miles` (line 84). -/

/-- Nominatim address breakdown fields read by `geocode_location`
(`""` = absent). -/
structure NomAddress where
  city : String
  state : String
  country : String
deriving DecidableEq

/-- One Nominatim search result as read by `geocode_location`. -/
structure NomResult where
  lat : ℚ
  lon : ℚ
  display_name : String
  address : NomAddress
deriving DecidableEq

/-- The result dict built by `geocode_location` (lines 54-61); every field
corresponds to a key the source always sets. -/
structure GeoRes where
  lat : ℚ
  lon : ℚ
  formatted_address : String
  city : String
  state : String
  country : String
deriving DecidableEq

/-- `LocationService.geocode_location`: build the result dict from the
provider response; `none` when the provider returned no data (or raised). -/
def geocodeLocation (prov : String → Option NomResult) (loc : String) :
    Option GeoRes :=
  (prov loc).map (fun d =>
    { lat := d.lat, lon := d.lon, formatted_address := d.display_name,
      city := d.address.city, state := d.address.state,
      country := d.address.country })

/-- Values stored in a candidate profile dict. -/
inductive PyVal where
  | vs : String → PyVal
  | vq : ℚ → PyVal
  | vg : GeoRes → PyVal
deriving DecidableEq

/-- A candidate profile dict. -/
abbrev Cand := List (String × PyVal)

/-- `candidate.get('location', '')` (line 109 / 142); a non-string value is
treated as absent. -/
def getLocationField (c : Cand) : String :=
  match dget c "location" with
  | some (PyVal.vs s) => s
  | _ => ""

/-- Python `round(x, 2)` over exact rationals: round half to even at two
decimal places. -/
def roundHalfEven (x : ℚ) : ℤ :=
  if x - ⌊x⌋ < 1 / 2 then ⌊x⌋
  else if 1 / 2 < x - ⌊x⌋ then ⌊x⌋ + 1
  else if Even ⌊x⌋ then ⌊x⌋ else ⌊x⌋ + 1

def round2 (q : ℚ) : ℚ := (roundHalfEven (q * 100) : ℚ) / 100

/-- Lines 120-122: `candidate.copy()` followed by the two annotations
`distance_miles` (rounded to two decimals) and `coordinates`. -/
def annotateCand (c : Cand) (d : ℚ) (g : GeoRes) : Cand :=
  dinsert (dinsert c "distance_miles" (PyVal.vq (round2 d))) "coordinates" (PyVal.vg g)

/-- The sort key `x['distance_miles']` (line 126); every element of the list
being sorted carries the key, so the fallback value is unreachable. -/
def keyD (c : Cand) : ℚ :=
  match dget c "distance_miles" with
  | some (PyVal.vq q) => q
  | _ => 0

/-- The per-candidate outcome of the loop of lines 108-123: `none` when the
candidate is skipped (no location, unresolvable location, or out of range),
otherwise the annotated copy. -/
def procOne (prov : String → Option NomResult) (dist : GeoRes → GeoRes → ℚ)
    (cc : GeoRes) (radius : ℚ) (c : Cand) : Option Cand :=
  if getLocationField c = "" then none
  else
    match geocodeLocation prov (getLocationField c) with
    | none => none
    | some g =>
      let d := dist cc g
      if d ≤ radius then some (annotateCand c d g) else none

/-- `candidates_in_radius` as accumulated by the loop of lines 106-123,
before sorting. -/
def inRadiusList (prov : String → Option NomResult) (dist : GeoRes → GeoRes → ℚ)
    (cands : List Cand) (cc : GeoRes) (radius : ℚ) : List Cand :=
  cands.foldl
    (fun acc c =>
      if getLocationField c = "" then acc
      else
        match geocodeLocation prov (getLocationField c) with
        | none => acc
        | some g =>
          let d := dist cc g
          if d ≤ radius then acc ++ [annotateCand c d g] else acc)
    []

/-- `LocationService.find_candidates_in_radius` (lines 89-127): empty result
when the center cannot be geocoded; otherwise the in-radius candidates sorted
ascending by their recorded distance (`list.sort` is stable, which
`List.mergeSort` matches). -/
def findCandidatesInRadius (prov : String → Option NomResult)
    (dist : GeoRes → GeoRes → ℚ) (cands : List Cand) (centerLoc : String)
    (radius : ℚ) : List Cand :=
  match geocodeLocation prov centerLoc with
  | none => []
  | some cc =>
    (inRadiusList prov dist cands cc radius).mergeSort
      (fun a b => decide (keyD a ≤ keyD b))

/-- `LocationService.group_candidates_by_city` (lines 129-156).  The bucket
key is `coords.get('city', 'Unknown')` (line 148); the dict built by
`geocode_location` always contains the `city` key (defaulted to `''`), so the
access always yields the `city` field. -/
def groupCandidatesByCity (prov : String → Option NomResult) (cands : List Cand) :
    List (String × List Cand) :=
  cands.foldl
    (fun groups c =>
      if getLocationField c = "" then groups
      else
        match geocodeLocation prov (getLocationField c) with
        | none => groups
        | some coords =>
          groupAppend groups coords.city (dinsert c "coordinates" (PyVal.vg coords)))
    []

theorem foldl_inRadius_filterMap (prov : String → Option NomResult)
    (dist : GeoRes → GeoRes → ℚ) (cc : GeoRes) (radius : ℚ) (cands : List Cand) :
    ∀ (acc : List Cand),
      cands.foldl
        (fun acc c =>
          if getLocationField c = "" then acc
          else
            match geocodeLocation prov (getLocationField c) with
            | none => acc
            | some g =>
              let d := dist cc g
              if d ≤ radius then acc ++ [annotateCand c d g] else acc)
        acc =
      acc ++ cands.filterMap (procOne prov dist cc radius) := by
  induction cands with
  | nil => intro acc; simp
  | cons c t ih =>
    intro acc
    rw [List.foldl_cons, List.filterMap_cons]
    have hstep :
        (if getLocationField c = "" then acc
          else
            match geocodeLocation prov (getLocationField c) with
            | none => acc
            | some g =>
              let d := dist cc g
              if d ≤ radius then acc ++ [annotateCand c d g] else acc) =
        (match procOne prov dist cc radius c with
          | some c2 => acc ++ [c2]
          | none => acc) := by
      unfold procOne
      by_cases h1 : getLocationField c = ""
      · rw [if_pos h1, if_pos h1]
      · rw [if_neg h1, if_neg h1]
        cases geocodeLocation prov (getLocationField c) with
        | none => rfl
        | some g =>
          dsimp only
          by_cases h2 : dist cc g ≤ radius
          · rw [if_pos h2, if_pos h2]
          · rw [if_neg h2, if_neg h2]
    rw [hstep]
    cases hp : procOne prov dist cc radius c with
    | none => dsimp only; rw [ih acc]
    | some c2 => dsimp only; rw [ih (acc ++ [c2])]; simp

theorem inRadiusList_eq_filterMap (prov : String → Option NomResult)
    (dist : GeoRes → GeoRes → ℚ) (cands : List Cand) (cc : GeoRes) (radius : ℚ) :
    inRadiusList prov dist cands cc radius =
      cands.filterMap (procOne prov dist cc radius) := by
  unfold inRadiusList
  rw [foldl_inRadius_filterMap prov dist cc radius cands []]
  simp

/-- Claim C8: the result of `find_candidates_in_radius` is sorted ascending by
the recorded distance; the pre-sort list is the input-order `filterMap` of the
candidate list, and the sort is stable: for every distance value `d`, the
`d`-distance entries of the sorted result are exactly the `d`-distance entries
of the pre-sort list, in that original input order. -/
theorem find_in_radius_sorted_stable (prov : String → Option NomResult)
    (dist : GeoRes → GeoRes → ℚ) (cands : List Cand) (centerLoc : String)
    (radius : ℚ) (cc : GeoRes)
    (hcc : geocodeLocation prov centerLoc = some cc) :
    List.Pairwise (fun a b => keyD a ≤ keyD b)
      (findCandidatesInRadius prov dist cands centerLoc radius) ∧
    inRadiusList prov dist cands cc radius =
      cands.filterMap (procOne prov dist cc radius) ∧
    ∀ d : ℚ,
      (findCandidatesInRadius prov dist cands centerLoc radius).filter
          (fun c => decide (keyD c = d)) =
        (inRadiusList prov dist cands cc radius).filter
          (fun c => decide (keyD c = d)) := by
  have hfr : findCandidatesInRadius prov dist cands centerLoc radius =
      (inRadiusList prov dist cands cc radius).mergeSort
        (fun a b => decide (keyD a ≤ keyD b)) := by
    unfold findCandidatesInRadius
    rw [hcc]
  have htrans : ∀ (a b c : Cand),
      (fun a b => decide (keyD a ≤ keyD b)) a b →
      (fun a b => decide (keyD a ≤ keyD b)) b c →
      (fun a b => decide (keyD a ≤ keyD b)) a c := by
    intro a b c hab hbc
    exact decide_eq_true (le_trans (of_decide_eq_true hab) (of_decide_eq_true hbc))
  have htotal : ∀ (a b : Cand),
      ((fun a b => decide (keyD a ≤ keyD b)) a b ||
        (fun a b => decide (keyD a ≤ keyD b)) b a) := by
    intro a b
    rcases le_total (keyD a) (keyD b) with h | h <;> simp [h]
  refine ⟨?_, inRadiusList_eq_filterMap prov dist cands cc radius, ?_⟩
  · rw [hfr]
    exact (List.sorted_mergeSort htrans htotal
      (inRadiusList prov dist cands cc radius)).imp (fun h => of_decide_eq_true h)
  · intro d
    rw [hfr]
    have hsub : List.Sublist ((inRadiusList prov dist cands cc radius).filter
        (fun c => decide (keyD c = d))) (inRadiusList prov dist cands cc radius) :=
      List.filter_sublist _
    have hpw : ((inRadiusList prov dist cands cc radius).filter
        (fun c => decide (keyD c = d))).Pairwise
          (fun a b => (fun a b => decide (keyD a ≤ keyD b)) a b) := by
      apply List.pairwise_of_forall_mem_list
      intro a ha b hb
      have hka : keyD a = d := of_decide_eq_true (List.mem_filter.mp ha).2
      have hkb : keyD b = d := of_decide_eq_true (List.mem_filter.mp hb).2
      exact decide_eq_true (by rw [hka, hkb])
    have h1 := List.sublist_mergeSort htrans htotal hpw hsub
    have h2 : ((inRadiusList prov dist cands cc radius).filter
        (fun c => decide (keyD c = d))).filter (fun c => decide (keyD c = d)) =
        (inRadiusList prov dist cands cc radius).filter
          (fun c => decide (keyD c = d)) :=
      List.filter_eq_self.mpr (fun a ha => (List.mem_filter.mp ha).2)
    have h3 := h2 ▸ (List.Sublist.filter (fun c => decide (keyD c = d)) h1)
    have hperm := (List.mergeSort_perm (inRadiusList prov dist cands cc radius)
      (fun a b => decide (keyD a ≤ keyD b))).filter (fun c => decide (keyD c = d))
    exact (List.Sublist.eq_of_length h3 hperm.length_eq.symm).symm

/-- Oracle fixture for the C8 witness: Nominatim responses for the center and
three candidate locations. -/
def w8prov : String → Option NomResult := fun loc =>
  if loc = "SF" then some (NomResult.mk 0 0 "SF" (NomAddress.mk "San Francisco" "CA" "USA"))
  else if loc = "A" then some (NomResult.mk 3 0 "A" (NomAddress.mk "" "" ""))
  else if loc = "B" then some (NomResult.mk 1 0 "B" (NomAddress.mk "" "" ""))
  else if loc = "C" then some (NomResult.mk 7 0 "C" (NomAddress.mk "" "" ""))
  else none

/-- Distance fixture for the C8 witness: the candidate's latitude field. -/
def w8dist : GeoRes → GeoRes → ℚ := fun _ g => g.lat

/-- Candidate fixture for the C8 witness. -/
def w8cands : List Cand :=
  [[("location", PyVal.vs "A")], [("location", PyVal.vs "B")], [("location", PyVal.vs "C")]]

/-- Witness for C8 at a concrete input. -/
theorem find_in_radius_sorted_stable_witness :
    List.Pairwise (fun a b => keyD a ≤ keyD b)
      (findCandidatesInRadius w8prov w8dist w8cands "SF" 100) ∧
    inRadiusList w8prov w8dist w8cands (GeoRes.mk 0 0 "SF" "San Francisco" "CA" "USA") 100 =
      w8cands.filterMap
        (procOne w8prov w8dist (GeoRes.mk 0 0 "SF" "San Francisco" "CA" "USA") 100) ∧
    (findCandidatesInRadius w8prov w8dist w8cands "SF" 100).filter
        (fun c => decide (keyD c = 1)) =
      (inRadiusList w8prov w8dist w8cands
          (GeoRes.mk 0 0 "SF" "San Francisco" "CA" "USA") 100).filter
        (fun c => decide (keyD c = 1)) := by
  have h := find_in_radius_sorted_stable w8prov w8dist w8cands "SF" 100
    (GeoRes.mk 0 0 "SF" "San Francisco" "CA" "USA") rfl
  exact ⟨h.1, h.2.1, h.2.2 1⟩

/-- Claim C9: when the center location cannot be geocoded,
`find_candidates_in_radius` returns the empty list (the failure is only
logged, no exception escapes: the embedding is a total function). -/
theorem find_in_radius_unresolvable_center (prov : String → Option NomResult)
    (dist : GeoRes → GeoRes → ℚ) (cands : List Cand) (centerLoc : String)
    (radius : ℚ) (h : geocodeLocation prov centerLoc = none) :
    findCandidatesInRadius prov dist cands centerLoc radius = [] := by
  unfold findCandidatesInRadius
  rw [h]

/-- Witness for C9 at a concrete input. -/
theorem find_in_radius_unresolvable_center_witness :
    findCandidatesInRadius (fun _ => none) (fun _ _ => 0)
      [[("location", PyVal.vs "A")]] "Nowhere" 10 = [] :=
  find_in_radius_unresolvable_center (fun _ => none) (fun _ _ => 0)
    [[("location", PyVal.vs "A")]] "Nowhere" 10 rfl

/-- Oracle fixture for the C7 evaluation: the provider resolves "Atlantis"
with an address breakdown that has no city component, and "LyonLoc" with city
"Lyon". -/
def w7prov : String → Option NomResult := fun loc =>
  if loc = "Atlantis" then some (NomResult.mk 1 2 "Atlantis Deep" (NomAddress.mk "" "Ocean" "Nowhere"))
  else if loc = "LyonLoc" then some (NomResult.mk 3 4 "Lyon, France" (NomAddress.mk "Lyon" "" "France"))
  else none

/-- Candidate fixture for the C7 evaluation. -/
def w7cands : List Cand :=
  [[("name", PyVal.vs "alice"), ("location", PyVal.vs "Atlantis")],
   [("name", PyVal.vs "bob"), ("location", PyVal.vs "LyonLoc")]]

/-- Claim C7 evaluated at the failing input: the geocoder result for a
provider response with no city component carries `city = ""` (the
`get('city', '')` default of `geocode_location`), so
`group_candidates_by_city` buckets the entity under the empty string and the
"Unknown" bucket of the claim is never created — the `'Unknown'` default at
line 148 is unreachable because the key is always present.  Entities whose
provider response does carry a city are bucketed under it. -/
theorem group_by_city_unknown_bucket_bug :
    geocodeLocation w7prov "Atlantis" =
      some (GeoRes.mk 1 2 "Atlantis Deep" "" "Ocean" "Nowhere") ∧
    dmem (groupCandidatesByCity w7prov w7cands) "" = true ∧
    dmem (groupCandidatesByCity w7prov w7cands) "Unknown" = false ∧
    dmem (groupCandidatesByCity w7prov w7cands) "Lyon" = true := by
  decide

/-! ## Heap-instrumented proximity functions (frame property, claim C10)

To state that `find_candidates_in_radius` and `group_candidates_by_city`
never mutate the caller's candidate dicts, the candidate list is modelled as
a heap (`List Cand`, ids are indices) threaded through the loops.
`candidate.copy()` followed by item assignments (lines 120-122 and 152-153 of
`location_utils.py`) allocates a fresh cell at the end of the heap holding
the annotated copy; nothing else touches the heap, which is exactly what the
theorem checks. -/

/-- Heap-instrumented loop body of `find_candidates_in_radius`: state is
(heap, result ids). -/
def fcirHeapStep (prov : String → Option NomResult) (dist : GeoRes → GeoRes → ℚ)
    (cc : GeoRes) (radius : ℚ) (st : List Cand × List Nat) (cid : Nat) :
    List Cand × List Nat :=
  let c := st.1.getD cid []
  if getLocationField c = "" then st
  else
    match geocodeLocation prov (getLocationField c) with
    | none => st
    | some g =>
      let d := dist cc g
      if d ≤ radius then (st.1 ++ [annotateCand c d g], st.2 ++ [st.1.length]) else st

/-- Heap-instrumented `find_candidates_in_radius`. -/
def findCandidatesInRadiusHeap (prov : String → Option NomResult)
    (dist : GeoRes → GeoRes → ℚ) (heap : List Cand) (candIds : List Nat)
    (centerLoc : String) (radius : ℚ) : List Cand × List Nat :=
  match geocodeLocation prov centerLoc with
  | none => (heap, [])
  | some cc =>
    let st := candIds.foldl (fcirHeapStep prov dist cc radius) (heap, [])
    (st.1, st.2.mergeSort
      (fun a b => decide (keyD (st.1.getD a []) ≤ keyD (st.1.getD b []))))

/-- Heap-instrumented loop body of `group_candidates_by_city`: state is
(heap, city groups of result ids). -/
def gcbcHeapStep (prov : String → Option NomResult)
    (st : List Cand × List (String × List Nat)) (cid : Nat) :
    List Cand × List (String × List Nat) :=
  let c := st.1.getD cid []
  if getLocationField c = "" then st
  else
    match geocodeLocation prov (getLocationField c) with
    | none => st
    | some coords =>
      (st.1 ++ [dinsert c "coordinates" (PyVal.vg coords)],
        groupAppend st.2 coords.city st.1.length)

/-- Heap-instrumented `group_candidates_by_city`. -/
def groupCandidatesByCityHeap (prov : String → Option NomResult)
    (heap : List Cand) (candIds : List Nat) :
    List Cand × List (String × List Nat) :=
  candIds.foldl (gcbcHeapStep prov) (heap, [])

theorem fcirHeapStep_extends (prov : String → Option NomResult)
    (dist : GeoRes → GeoRes → ℚ) (cc : GeoRes) (radius : ℚ)
    (st : List Cand × List Nat) (cid : Nat) :
    ∃ t, (fcirHeapStep prov dist cc radius st cid).1 = st.1 ++ t := by
  unfold fcirHeapStep
  by_cases h1 : getLocationField (st.1.getD cid []) = ""
  · exact ⟨[], by rw [if_pos h1]; simp⟩
  · rw [if_neg h1]
    cases geocodeLocation prov (getLocationField (st.1.getD cid [])) with
    | none => exact ⟨[], by simp⟩
    | some g =>
      dsimp only
      by_cases h2 : dist cc g ≤ radius
      · exact ⟨[annotateCand (st.1.getD cid []) (dist cc g) g], by rw [if_pos h2]⟩
      · exact ⟨[], by rw [if_neg h2]; simp⟩

theorem gcbcHeapStep_extends (prov : String → Option NomResult)
    (st : List Cand × List (String × List Nat)) (cid : Nat) :
    ∃ t, (gcbcHeapStep prov st cid).1 = st.1 ++ t := by
  unfold gcbcHeapStep
  by_cases h1 : getLocationField (st.1.getD cid []) = ""
  · exact ⟨[], by rw [if_pos h1]; simp⟩
  · rw [if_neg h1]
    cases geocodeLocation prov (getLocationField (st.1.getD cid [])) with
    | none => exact ⟨[], by simp⟩
    | some coords =>
      exact ⟨[dinsert (st.1.getD cid []) "coordinates" (PyVal.vg coords)], rfl⟩

theorem foldl_heap_extends {σ : Type} (f : (List Cand × σ) → Nat → (List Cand × σ))
    (hf : ∀ st i, ∃ t, (f st i).1 = st.1 ++ t) (ids : List Nat) :
    ∀ st : List Cand × σ, ∃ t, (ids.foldl f st).1 = st.1 ++ t := by
  induction ids with
  | nil => intro st; exact ⟨[], by simp⟩
  | cons i ids ih =>
    intro st
    rw [List.foldl_cons]
    obtain ⟨t1, ht1⟩ := hf st i
    obtain ⟨t2, ht2⟩ := ih (f st i)
    exact ⟨t1 ++ t2, by rw [ht2, ht1, List.append_assoc]⟩

/-- Claim C10: neither proximity search nor city grouping mutates any
pre-existing candidate dict: the original heap is preserved unchanged as a
prefix of the final heap (annotations happen only on freshly allocated
copies). -/
theorem input_candidates_not_mutated (prov : String → Option NomResult)
    (dist : GeoRes → GeoRes → ℚ) (heap : List Cand) (candIds : List Nat)
    (centerLoc : String) (radius : ℚ) :
    (findCandidatesInRadiusHeap prov dist heap candIds centerLoc radius).1.take
      heap.length = heap ∧
    (groupCandidatesByCityHeap prov heap candIds).1.take heap.length = heap := by
  constructor
  · unfold findCandidatesInRadiusHeap
    cases hcc : geocodeLocation prov centerLoc with
    | none => simp
    | some cc =>
      dsimp only
      obtain ⟨t, ht⟩ := foldl_heap_extends (fcirHeapStep prov dist cc radius)
        (fcirHeapStep_extends prov dist cc radius) candIds (heap, [])
      rw [ht]
      exact List.take_left heap t
  · unfold groupCandidatesByCityHeap
    obtain ⟨t, ht⟩ := foldl_heap_extends (gcbcHeapStep prov)
      (gcbcHeapStep_extends prov) candIds (heap, [])
    rw [ht]
    exact List.take_left heap t
